import Mathlib

/-!
Verification of the schema-to-type-model core of the repository
(`pkg/codegen/schema.go`, `pkg/codegen/utils.go`) against its
natural-language specification.

Modelling conventions, used throughout:

* Go strings are UTF-8 byte strings.  Functions that work rune-by-rune
  (`for _, c := range s`) are modelled over `List Char` / `String`
  (Lean strings are sequences of unicode scalar values, exactly Go's
  runes); functions that work byte-by-byte (`keySlice.Less`, indexing
  `s[i]`) are modelled over `List Nat` of UTF-8 bytes, produced by
  `strBytes` below.
* Go's `unicode.IsUpper/IsLower/IsDigit/IsNumber/IsLetter` and
  `strings.ToUpper/ToLower` are modelled on the ASCII fragment
  (`Char.isUpper`, …): every concrete input appearing in the spec, the
  claims and the counterexamples is ASCII, where the two coincide.
* A Go function that can panic is modelled with result type `Option _`,
  `none` standing for the panic.
* Fallible functions return `Except String _` carrying the exact
  `fmt.Errorf` message of the source.
-/

namespace OapiCodegen

/-! ## Byte-level helpers (Go strings as UTF-8 bytes) -/

/-- The UTF-8 bytes of one unicode scalar value, as Go encodes it. -/
def utf8Bytes (c : Char) : List Nat :=
  let n := c.toNat
  if n < 0x80 then [n]
  else if n < 0x800 then [0xC0 + n / 64, 0x80 + n % 64]
  else if n < 0x10000 then [0xE0 + n / 4096, 0x80 + n / 64 % 64, 0x80 + n % 64]
  else [0xF0 + n / 262144, 0x80 + n / 4096 % 64, 0x80 + n / 64 % 64, 0x80 + n % 64]

/-- A Go string as its UTF-8 byte sequence. -/
def strBytes (s : String) : List Nat :=
  s.data.flatMap utf8Bytes

/-- Go's `<` on strings: lexicographic comparison of the byte sequences,
a strict prefix being smaller. -/
def lexBytes : List Nat → List Nat → Bool
  | [], [] => false
  | [], _ :: _ => true
  | _ :: _, [] => false
  | a :: as, b :: bs => if a < b then true else if b < a then false else lexBytes as bs

/-! ## The Ordering Utility (`keySlice.Less`, utils.go lines 161-187) -/

/-- `strings.EqualFold(k, "id")` at the byte level: `EqualFold` compares
rune-wise under unicode simple folding, and the simple-fold orbits of
`i` and `d` are exactly `{i, I}` and `{d, D}` (the Turkish dotless
forms fold to `i` only under the Turkish-specific rules Go does not
apply).  Those four runes are one ASCII byte each and no non-ASCII rune
encodes to bytes below `0x80`, so at the byte level the test is: exactly
two bytes, the first `I`/`i`, the second `D`/`d`. -/
def equalFoldID (k : List Nat) : Bool :=
  match k with
  | [c1, c2] => (c1 == 73 || c1 == 105) && (c2 == 68 || c2 == 100)
  | _ => false

/-- The bytes of the literal `"_at"`. -/
def atSuffix : List Nat := [95, 97, 116]

/-- Whether the last three bytes of a key are `"_at"` (`iKey[len(iKey)-3:]
== "_at"` in the source; only evaluated there when the key is longer
than 3 bytes). -/
def endsAt (k : List Nat) : Bool := k.drop (k.length - 3) == atSuffix

/-- `keySlice.Less` from utils.go lines 161-187, on the raw key bytes:
a key case-insensitively equal to `"id"` first; keys of byte length at
most 3 compared lexicographically; otherwise a key ending in `"_at"`
after one that does not, ties within a class lexicographic. -/
def keySliceLess (iKey jKey : List Nat) : Bool :=
  if equalFoldID iKey then true
  else if equalFoldID jKey then false
  else if iKey.length ≤ 3 || jKey.length ≤ 3 then lexBytes iKey jKey
  else
    let iAt := endsAt iKey
    let jAt := endsAt jKey
    if iAt && jAt then lexBytes iKey jKey
    else if iAt then false
    else if jAt then true
    else lexBytes iKey jKey

/-- `keySlice.Less` on Go strings (the form the sort functions use). -/
def keyLess (i j : String) : Bool := keySliceLess (strBytes i) (strBytes j)

/-- One step of `sort.Stable`'s insertion sort, on a reversed sorted
prefix (last element first): the new element moves left past exactly the
consecutive elements, taken from the right, that it is `Less` than —
Go's inner loop `for j := i; j > a && data.Less(j, j-1); j--`. -/
def stableInsertRev (less : α → α → Bool) (x : α) : List α → List α
  | [] => [x]
  | y :: ys => if less x y then y :: stableInsertRev less x ys else x :: y :: ys

/-- `sort.Stable` with comparator `less`: stable insertion sort (Go's
`sort.Stable` is insertion sort on blocks of up to 20 elements followed
by stable merging; on the sizes considered here it is exactly insertion
sort, and its contract is in any case a stable sort by `Less`). -/
def sortStable (less : α → α → Bool) (l : List α) : List α :=
  (l.foldl (fun acc x => stableInsertRev less x acc) []).reverse

/-- `SortedSchemaKeys` (utils.go lines 197-206) on an association list
standing for the Go map: the keys, ordered by `keySlice.Less` under
`sort.Stable`. -/
def SortedSchemaKeys (dict : List (String × α)) : List String :=
  sortStable keyLess (dict.map Prod.fst)

/-! ## The Naming Transform (utils.go lines 28-153, 654-698) -/

/-- The word separators of `toCamelorPascalCase` (the braces are written
with escapes): `- # @ ! $ & = . + : ; _ ~ space ( ) { } [ ]`. -/
def camelSeparators : List Char := "-#@!$&=.+:;_~ ()\x7b\x7d[]".data

/-- `strings.Trim(str, " ")`: spaces removed from both ends. -/
def trimSpaces (l : List Char) : List Char :=
  ((l.dropWhile (· == ' ')).reverse.dropWhile (· == ' ')).reverse

/-- The accumulating loop of `toCamelorPascalCase`: uppercase letters and
digits pass through, a lowercase letter is capitalized when the previous
rune was a separator (or at the start, for Pascal case), every other rune
is dropped; separators arm capitalization for the next rune. -/
def camelLoop (capNext : Bool) : List Char → List Char
  | [] => []
  | v :: rest =>
    let kept :=
      (if v.isUpper then [v] else []) ++
      (if v.isDigit then [v] else []) ++
      (if v.isLower then [if capNext then v.toUpper else v] else [])
    kept ++ camelLoop (camelSeparators.contains v) rest

/-- `[^a-z]`: any rune that is not an ASCII lowercase letter (Go regexp
character classes are over exactly this ASCII range). -/
def nonLowerChar (c : Char) : Bool := !c.isLower

/-- One `regexp.ReplaceAllString` step for an initialism pattern
`W([^a-z]+|$)` with replacement `CANON$1`: scanning left to right, a
match is an occurrence of the word `w` followed by a nonempty run of
non-lowercase runes (captured and kept) or by the end of the string;
the occurrence is replaced by `canon` and scanning resumes after the
match.  Fuel is the number of scanning steps; it is always called with
the input length, which suffices since every step consumes at least one
rune. -/
def replaceAbbrevFuel (w canon : List Char) : Nat → List Char → List Char
  | _, [] => []
  | 0, l => l
  | fuel + 1, c :: cs =>
    if w.isPrefixOf (c :: cs) then
      let rest := (c :: cs).drop w.length
      let run := rest.takeWhile nonLowerChar
      if run.isEmpty then
        if rest.isEmpty then canon
        else c :: replaceAbbrevFuel w canon fuel cs
      else canon ++ run ++ replaceAbbrevFuel w canon fuel (rest.dropWhile nonLowerChar)
    else c :: replaceAbbrevFuel w canon fuel cs

/-- `ReplaceAllString` for the pattern `w([^a-z]+|$)` and replacement
`canon$1`. -/
def replaceAbbrev (w canon : List Char) (l : List Char) : List Char :=
  replaceAbbrevFuel w canon l.length l

/-- `commonInitialisms` (utils.go lines 96-146): canonical form and the
word its regular expression looks for, in the source's textual order.
The entry `("UTF8", "Ut")` reproduces the source's own pattern for UTF8
verbatim.  (The source iterates this table as a Go map, whose order is
unspecified; every fact proved below is independent of the order.) -/
def commonInitialisms : List (String × String) :=
  [("ACL", "Acl"), ("API", "Api"), ("ASCII", "Ascii"), ("CPU", "Cpu"),
   ("CSS", "Css"), ("DNS", "Dns"), ("EOF", "Eof"), ("GUID", "Guid"),
   ("HTML", "Html"), ("HTTP", "Http"), ("HTTPS", "Https"), ("ID", "Id"),
   ("IP", "Ip"), ("JSON", "Json"), ("LHS", "Lhs"), ("QPS", "Qps"),
   ("RAM", "Ram"), ("RHS", "Rhs"), ("RPC", "Rpc"), ("SLA", "Sla"),
   ("SMTP", "Smtp"), ("SQL", "Sql"), ("SSH", "Ssh"), ("TCP", "Tcp"),
   ("TLS", "Tls"), ("TTL", "Ttl"), ("UDP", "Udp"), ("UI", "Ui"),
   ("UID", "Uid"), ("UUID", "Uuid"), ("URI", "Uri"), ("URL", "Url"),
   ("UTF8", "Ut"), ("VM", "Vm"), ("XML", "Xml"), ("XMPP", "Xmpp"),
   ("XSRF", "Xsrf"), ("XSS", "Xss"), ("OAuth", "Oauth"), ("OFAC", "Ofac"),
   ("NASA", "Nasa"), ("USD", "Usd"), ("EUR", "Eur"), ("BTC", "Btc"),
   ("ETH", "Eth"), ("PDF", "Pdf"), ("PDF417", "Pdf417"), ("SSN", "Ssn"),
   ("SMS", "Sms")]

/-- `fixCamelCaseAbbrev` (utils.go lines 148-153): apply every
initialism replacement in turn. -/
def fixCamelCaseAbbrev (l : List Char) : List Char :=
  commonInitialisms.foldl (fun s p => replaceAbbrev p.2.data p.1.data s) l

/-- `toCamelorPascalCase` (utils.go lines 66-94). -/
def toCamelorPascalCase (str : String) (capFirst : Bool) : String :=
  ⟨fixCamelCaseAbbrev (camelLoop capFirst (trimSpaces str.data))⟩

/-- `ToPascalCase` (utils.go line 59). -/
def ToPascalCase (str : String) : String := toCamelorPascalCase str true

/-- `ToCamelCase` (utils.go line 62). -/
def ToCamelCase (str : String) : String := toCamelorPascalCase str false

/-- The loop of `typeNamePrefix` (utils.go lines 654-687).  `nameLen1`
is `len(name) == 1`, only consulted when a `$` rune is seen (and then
the name is `"$"` exactly, so rune and byte length agree). -/
def typeNamePfxLoop (nameLen1 : Bool) (pfx : List Char) : List Char → List Char
  | [] => pfx
  | r :: rest =>
    if r == '$' then
      if nameLen1 then "DollarSign".data else typeNamePfxLoop nameLen1 pfx rest
    else if r == '-' then typeNamePfxLoop nameLen1 (pfx ++ "Minus".data) rest
    else if r == '+' then typeNamePfxLoop nameLen1 (pfx ++ "Plus".data) rest
    else if r == '&' then typeNamePfxLoop nameLen1 (pfx ++ "And".data) rest
    else if r == '~' then typeNamePfxLoop nameLen1 (pfx ++ "Tilde".data) rest
    else if r == '=' then typeNamePfxLoop nameLen1 (pfx ++ "Equal".data) rest
    else if r == '#' then typeNamePfxLoop nameLen1 (pfx ++ "Hash".data) rest
    else if r == '.' then typeNamePfxLoop nameLen1 (pfx ++ "Dot".data) rest
    else if pfx.isEmpty && r.isDigit then "N".data
    else pfx

/-- `typeNamePrefix` from utils.go lines 654-687 (`Pfx` for `Prefix`):
symbol prefixes accumulated from the front of the name, `"N"` for a
name starting with a digit. -/
def typeNamePfx (name : String) : String :=
  ⟨typeNamePfxLoop (name.data.length == 1) [] name.data⟩

/-- `SchemaNameToTypeName` (utils.go lines 692-694). -/
def SchemaNameToTypeName (name : String) : String :=
  typeNamePfx name ++ ToPascalCase name

/-- `SchemaNameToEnumValueName` (utils.go lines 696-698):
`strings.ReplaceAll(name, "_", "-")` is a per-rune replacement. -/
def SchemaNameToEnumValueName (name : String) : String :=
  typeNamePfx name ++
    ToPascalCase ⟨name.data.map fun c => if c == '_' then '-' else c⟩

/-- `PathToTypeName` (utils.go lines 719-724).  (The Go function also
writes the Pascal-cased elements back into its argument slice; the model
is the pure value it returns.) -/
def PathToTypeName (path : List String) : String :=
  String.intercalate "_" (path.map ToPascalCase)

/-! ## The Identifier Sanitizer (utils.go lines 457-611) -/

/-- The Go keywords of `IsGoKeyword` (utils.go lines 458-493). -/
def goKeywords : List String :=
  ["break", "case", "chan", "const", "continue", "default", "defer",
   "else", "fallthrough", "for", "func", "go", "goto", "if", "import",
   "interface", "map", "package", "range", "return", "select", "struct",
   "switch", "type", "var"]

/-- `IsGoKeyword` (utils.go lines 458-493). -/
def IsGoKeyword (str : String) : Bool := goKeywords.contains str

/-- The predeclared identifiers of `IsPredeclaredGoIdentifier`
(utils.go lines 499-553). -/
def predeclaredIdentifiers : List String :=
  ["bool", "byte", "complex64", "complex128", "error", "float32",
   "float64", "int", "int8", "int16", "int32", "int64", "rune", "string",
   "uint", "uint8", "uint16", "uint32", "uint64", "uintptr",
   "true", "false", "iota", "nil",
   "append", "cap", "close", "complex", "copy", "delete", "imag", "len",
   "make", "new", "panic", "print", "println", "real", "recover"]

/-- `IsPredeclaredGoIdentifier` (utils.go lines 499-553). -/
def IsPredeclaredGoIdentifier (str : String) : Bool :=
  predeclaredIdentifiers.contains str

/-- `isValidRuneForGoID` (utils.go lines 569-575).  The source consults
the byte index only through `index == 0`, i.e. whether the rune is the
first; `isFirst` carries exactly that. -/
def isValidRuneForGoID (isFirst : Bool) (char : Char) : Bool :=
  if isFirst && char.isDigit then false
  else char.isAlpha || char == '_' || char.isDigit

/-- The rune scan of `IsGoIdentity`: every rune valid at its position. -/
def goIdentRunesOk : List Char → Bool
  | [] => true
  | c :: cs => isValidRuneForGoID true c && cs.all (isValidRuneForGoID false)

/-- `IsGoIdentity` (utils.go lines 559-567).  Note the source's final
statement returns `IsGoKeyword(str)` — not `true` — so the function
holds only of keywords whose runes are all valid. -/
def IsGoIdentity (str : String) : Bool :=
  goIdentRunesOk str.data && IsGoKeyword str

/-- `IsValidGoIdentity` (utils.go lines 579-585). -/
def IsValidGoIdentity (str : String) : Bool :=
  !IsGoIdentity str && !IsPredeclaredGoIdentifier str

/-- The rune-replacement pass of `SanitizeGoIdentity`: every rune that
is not valid at its position becomes `_`. -/
def sanitizeRunes : List Char → List Char
  | [] => []
  | c :: cs =>
    (if isValidRuneForGoID true c then c else '_') ::
      cs.map fun d => if isValidRuneForGoID false d then d else '_'

/-- `SanitizeGoIdentity` (utils.go lines 589-611) without its final
validity check: replace invalid runes by `_`, then prefix `_` when the
result is a keyword or a predeclared identifier. -/
def sanitizeGoIdentityCore (str : String) : String :=
  let str : String := ⟨sanitizeRunes str.data⟩
  if IsGoKeyword str || IsPredeclaredGoIdentifier str then "_" ++ str else str

/-- `SanitizeGoIdentity` (utils.go lines 589-611) with its final check:
`none` stands for the source's `panic("here is a bug")` when
`IsValidGoIdentity` rejects the result. -/
def SanitizeGoIdentity (str : String) : Option String :=
  let r := sanitizeGoIdentityCore str
  if IsValidGoIdentity r then some r else none

/-! ## The Enum Extractor (`SanitizeEnumNames`, utils.go lines 615-652) -/

/-- `strings.ContainsAny(n, "_- ")`. -/
def containsSeparator (n : String) : Bool :=
  n.data.any fun c => c == '_' || c == '-' || c == ' '

/-- `strings.ToLower` on the ASCII fragment. -/
def toLowerStr (s : String) : String := ⟨s.data.map Char.toLower⟩

/-- The deduplication pass of `SanitizeEnumNames`: keep the first
occurrence of each literal, in order. -/
def dedupKeepFirst (seen : List String) : List String → List String
  | [] => []
  | n :: ns =>
    if seen.contains n then dedupKeepFirst seen ns
    else n :: dedupKeepFirst (n :: seen) ns

/-- Insertion into the Go map `sanitizedDeDup`, modelled as an
association list in insertion order: a present key is overwritten in
place, an absent one appended. -/
def upsert (k v : String) : List (String × String) → List (String × String)
  | [] => [(k, v)]
  | (k', v') :: rest =>
    if k' == k then (k, v) :: rest else (k', v') :: upsert k v rest

/-- Lookup in the Go counting map `dupCheck`. -/
def lookupCount (k : String) : List (String × Nat) → Option Nat
  | [] => none
  | (k', n) :: rest => if k' == k then some n else lookupCount k rest

/-- `dupCheck[sanitized]++`. -/
def bumpCount (k : String) : List (String × Nat) → List (String × Nat)
  | [] => [(k, 1)]
  | (k', n) :: rest =>
    if k' == k then (k', n + 1) :: rest else (k', n) :: bumpCount k rest

/-- The main loop of `SanitizeEnumNames`: sanitize each surviving
literal (lower-cased first when any surviving literal has a separator),
and on a collision in `dupCheck` append the current per-identifier
count.  The sanitization uses `sanitizeGoIdentityCore`; the source
calls `SanitizeGoIdentity`, whose panic never fires (theorem
`c9_sanitize_check_unreachable` below). -/
def sanitizeEnumLoop (hasMultiWord : Bool) :
    List (String × Nat) → List (String × String) → List String →
      List (String × String)
  | _, acc, [] => acc
  | dupCheck, acc, n :: ns =>
    let toSanitize := if hasMultiWord then toLowerStr n else n
    let sanitized := sanitizeGoIdentityCore (SchemaNameToEnumValueName toSanitize)
    let acc :=
      match lookupCount sanitized dupCheck with
      | none => upsert sanitized n acc
      | some k => upsert (sanitized ++ toString k) n acc
    sanitizeEnumLoop hasMultiWord (bumpCount sanitized dupCheck) acc ns

/-- `SanitizeEnumNames` (utils.go lines 615-652), the produced Go map
rendered as an association list in insertion order. -/
def SanitizeEnumNames (enumNames : List String) : List (String × String) :=
  let deDup := dedupKeepFirst [] enumNames
  let hasMultiWord := deDup.any containsSeparator
  sanitizeEnumLoop hasMultiWord [] [] deDup

/-! ## The Reference Resolver (utils.go lines 314-374) -/

/-- `strings.Split` on a one-byte separator. -/
def splitOnChar (sep : Char) : List Char → List (List Char)
  | [] => [[]]
  | c :: cs =>
    match splitOnChar sep cs with
    | [] => [[c]]
    | p :: ps => if c == sep then [] :: p :: ps else (c :: p) :: ps

/-- Lookup in the `--import-mapping` table (`importMapping` is defined
outside the given source files; the claims call it the caller-supplied
mapping of imports, modelled as an association list from document
identifier to the import's `Name`). -/
def lookupImport (k : String) : List (String × String) → Option String
  | [] => none
  | (k', v) :: rest => if k' == k then some v else lookupImport k rest

/-- The `refPath[0] == '#'` branch of `refPathToGoType` (utils.go lines
327-338): split on `/`, demand depth 4 (local) or 2/4 (non-local), and
Pascal-case the final segment. -/
def fragmentRefToGoType (isLocal : Bool) (refPath : String) :
    Except String String :=
  let pathParts := splitOnChar '/' refPath.data
  let depth := pathParts.length
  if if isLocal then depth ≠ 4 else depth ≠ 4 ∧ depth ≠ 2 then
    .error ("unexpected reference depth: " ++ toString depth ++ " for ref: "
      ++ refPath ++ " local: " ++ if isLocal then "true" else "false")
  else
    .ok (SchemaNameToTypeName ⟨pathParts.getLastD []⟩)

/-- `refPathToGoType` (utils.go lines 326-353).  `none` stands for the
panic of the unguarded `refPath[0]` on the empty string.  The source's
recursive call `refPathToGoType("#"+flatComponent, false)` is on a
string whose first byte is `'#'`, hence exactly
`fragmentRefToGoType false`. -/
def refPathToGoType (imports : List (String × String)) (isLocal : Bool)
    (refPath : String) : Option (Except String String) :=
  match refPath.data with
  | [] => none
  | c :: _ =>
    if c == '#' then some (fragmentRefToGoType isLocal refPath)
    else
      match splitOnChar '#' refPath.data with
      | [remoteComponent, flatComponent] =>
        match lookupImport ⟨remoteComponent⟩ imports with
        | none => some (.error ("unrecognized external reference '"
            ++ String.mk remoteComponent
            ++ "'; please provide the known import for this reference using option --import-mapping"))
        | some goImportName =>
          match fragmentRefToGoType false ("#" ++ ⟨flatComponent⟩) with
          | .error e => some (.error e)
          | .ok goType => some (.ok (goImportName ++ "." ++ goType))
      | _ => some (.error ("unsupported reference: " ++ refPath))

/-- `RefPathToGoType` (utils.go lines 321-323). -/
def RefPathToGoType (imports : List (String × String)) (refPath : String) :
    Option (Except String String) :=
  refPathToGoType imports true refPath

/-- `IsWholeDocumentReference` (utils.go lines 372-374). -/
def IsWholeDocumentReference (ref : String) : Bool :=
  ref ≠ "" && !ref.data.contains '#'

/-- `IsGoTypeReference` (utils.go lines 361-363). -/
def IsGoTypeReference (ref : String) : Bool :=
  ref ≠ "" && !IsWholeDocumentReference ref

/-- `StringInArray` (utils.go lines 305-312). -/
def StringInArray (str : String) (array : List String) : Bool :=
  array.contains str

/-! ## The Primitive Type Mapper (`resolveGoType`, schema.go lines 399-466) -/

/-- `resolveGoType` (schema.go lines 399-466): base kind and format to
a Go scalar type, `"array"` being the caller-must-recurse sentinel. -/
def resolveGoType (f t : String) : Except String String :=
  if t == "array" then .ok "array"
  else if t == "integer" then
    if f == "int64" then .ok "int64"
    else if f == "int32" then .ok "int32"
    else if f == "int16" then .ok "int16"
    else if f == "int8" then .ok "int8"
    else if f == "int" then .ok "int"
    else if f == "uint64" then .ok "uint64"
    else if f == "uint32" then .ok "uint32"
    else if f == "uint16" then .ok "uint16"
    else if f == "uint8" then .ok "uint8"
    else if f == "uint" then .ok "uint"
    else if f == "" then .ok "int"
    else .error ("invalid integer format: " ++ f)
  else if t == "number" then
    if f == "double" then .ok "float64"
    else if f == "float" || f == "" then .ok "float32"
    else .error ("invalid number format: " ++ f)
  else if t == "boolean" then
    if f ≠ "" then .error ("invalid format (" ++ f ++ ") for boolean")
    else .ok "bool"
  else if t == "string" then
    if f == "byte" then .ok "[]byte"
    else if f == "email" then .ok "openapi_types.Email"
    else if f == "date" then .ok "openapi_types.Date"
    else if f == "date-time" then .ok "time.Time"
    else if f == "json" then .ok "json.RawMessage"
    else if f == "uuid" then .ok "openapi_types.UUID"
    else .ok "string"
  else .error ("unhandled Schema type: " ++ t)

/-- Decidable equality for `Except`, needed to evaluate concrete
resolver results in proofs. -/
instance {e a : Type} [DecidableEq e] [DecidableEq a] : DecidableEq (Except e a) := fun x y =>
  match x, y with
  | .error u, .error v =>
    if h : u = v then isTrue (by rw [h]) else isFalse (by intro hc; cases hc; exact h rfl)
  | .error _, .ok _ => isFalse (by intro hc; cases hc)
  | .ok _, .error _ => isFalse (by intro hc; cases hc)
  | .ok u, .ok v =>
    if h : u = v then isTrue (by rw [h]) else isFalse (by intro hc; cases hc; exact h rfl)

/-! ## The type model (`Schema`, `Property`, `TypeDefinition`, schema.go lines 13-151)

`Schema` contains `Property` contains `Schema`, so the Go structs become
one nested inductive: a property is its non-schema data (`PData`) paired
with its schema, a type definition its data (`TData`) paired with its
schema. -/

/-- An extension value (`interface{}` in the source): the shapes the
extension parsers consume — a string (type/field-name overrides), a
boolean (omit-empty override) or a string-to-string map (extra tags). -/
inductive ExtVal where
  | str (s : String)
  | bool (b : Bool)
  | tags (m : List (String × String))
deriving Repr, DecidableEq

/-- The non-schema fields of `Property` (schema.go lines 71-80). -/
structure PData where
  description : String
  jsonFieldName : String
  required : Bool
  nullable : Bool
  readOnly : Bool
  writeOnly : Bool
  extensions : List (String × ExtVal)
deriving Repr, DecidableEq

/-- The non-schema fields of `TypeDefinition` (schema.go lines 121-131). -/
structure TData where
  typeName : String
  jsonName : String
deriving Repr, DecidableEq

/-- A `SchemaRef` of the input document (kin-openapi): the `$ref` string
and the resolved `Value` pointer, modelled as an index into the
document's schema environment (the pointer graph of a cyclic document
is cyclic, which indices represent directly). -/
structure SchemaRefM where
  ref : String
  value : Nat
deriving Repr, DecidableEq

/-- An input `openapi3.Schema` node (the fields the compiler reads).
`enum` holds the literals already stringified (`fmt.Sprintf("%v", ·)`).
An absent slice/map/pointer is `none`/`[]` as in Go. -/
structure OASchemaM where
  type : String := ""
  format : String := ""
  description : String := ""
  properties : List (String × SchemaRefM) := []
  required : List String := []
  items : Option SchemaRefM := none
  enum : List String := []
  allOf : Option (List SchemaRefM) := none
  anyOf : Option (List SchemaRefM) := none
  oneOf : Option (List SchemaRefM) := none
  additionalProperties : Option SchemaRefM := none
  additionalPropertiesAllowed : Option Bool := none
  nullable : Bool := false
  readOnly : Bool := false
  writeOnly : Bool := false
  extensions : List (String × ExtVal) := []
deriving Repr, DecidableEq

/-- The output `Schema` struct (schema.go lines 13-33), fields in source
order; `oapiSchema` is the back-pointer to the original node. -/
inductive SchemaM where
  | mk (goType refType refGoType : String)
       (arrayType : Option SchemaM)
       (enumValues : List (String × String))
       (properties : List (PData × SchemaM))
       (hasAdditionalProperties : Bool)
       (additionalPropertiesType : Option SchemaM)
       (additionalTypes : List (TData × SchemaM))
       (skipOptionalPointer : Bool)
       (description : String)
       (oapiSchema : Option OASchemaM)

def SchemaM.goType : SchemaM → String
  | .mk g _ _ _ _ _ _ _ _ _ _ _ => g

def SchemaM.refType : SchemaM → String
  | .mk _ r _ _ _ _ _ _ _ _ _ _ => r

def SchemaM.refGoType : SchemaM → String
  | .mk _ _ rg _ _ _ _ _ _ _ _ _ => rg

def SchemaM.arrayType : SchemaM → Option SchemaM
  | .mk _ _ _ a _ _ _ _ _ _ _ _ => a

def SchemaM.enumValues : SchemaM → List (String × String)
  | .mk _ _ _ _ e _ _ _ _ _ _ _ => e

def SchemaM.properties : SchemaM → List (PData × SchemaM)
  | .mk _ _ _ _ _ p _ _ _ _ _ _ => p

def SchemaM.hasAdditionalProperties : SchemaM → Bool
  | .mk _ _ _ _ _ _ h _ _ _ _ _ => h

def SchemaM.additionalPropertiesType : SchemaM → Option SchemaM
  | .mk _ _ _ _ _ _ _ t _ _ _ _ => t

def SchemaM.additionalTypes : SchemaM → List (TData × SchemaM)
  | .mk _ _ _ _ _ _ _ _ ts _ _ _ => ts

def SchemaM.skipOptionalPointer : SchemaM → Bool
  | .mk _ _ _ _ _ _ _ _ _ s _ _ => s

def SchemaM.description : SchemaM → String
  | .mk _ _ _ _ _ _ _ _ _ _ d _ => d

def SchemaM.oapiSchema : SchemaM → Option OASchemaM
  | .mk _ _ _ _ _ _ _ _ _ _ _ o => o

/-- The zero value `Schema{}`. -/
def SchemaM.empty : SchemaM := .mk "" "" "" none [] [] false none [] false "" none

def SchemaM.withGoType : SchemaM → String → SchemaM
  | .mk _ r rg a e p h t ts s d o, g => .mk g r rg a e p h t ts s d o

def SchemaM.withRefType : SchemaM → String → SchemaM
  | .mk g _ rg a e p h t ts s d o, r => .mk g r rg a e p h t ts s d o

def SchemaM.withRefGoType : SchemaM → String → SchemaM
  | .mk g r _ a e p h t ts s d o, rg => .mk g r rg a e p h t ts s d o

def SchemaM.withArrayType : SchemaM → Option SchemaM → SchemaM
  | .mk g r rg _ e p h t ts s d o, a => .mk g r rg a e p h t ts s d o

def SchemaM.withEnumValues : SchemaM → List (String × String) → SchemaM
  | .mk g r rg a _ p h t ts s d o, e => .mk g r rg a e p h t ts s d o

def SchemaM.withProperties : SchemaM → List (PData × SchemaM) → SchemaM
  | .mk g r rg a e _ h t ts s d o, p => .mk g r rg a e p h t ts s d o

def SchemaM.withHasAdditionalProperties : SchemaM → Bool → SchemaM
  | .mk g r rg a e p _ t ts s d o, h => .mk g r rg a e p h t ts s d o

def SchemaM.withAdditionalPropertiesType : SchemaM → Option SchemaM → SchemaM
  | .mk g r rg a e p h _ ts s d o, t => .mk g r rg a e p h t ts s d o

def SchemaM.withAdditionalTypes : SchemaM → List (TData × SchemaM) → SchemaM
  | .mk g r rg a e p h t _ s d o, ts => .mk g r rg a e p h t ts s d o

def SchemaM.withSkipOptionalPointer : SchemaM → Bool → SchemaM
  | .mk g r rg a e p h t ts _ d o, s => .mk g r rg a e p h t ts s d o

def SchemaM.withDescription : SchemaM → String → SchemaM
  | .mk g r rg a e p h t ts s _ o, d => .mk g r rg a e p h t ts s d o

def SchemaM.withOapiSchema : SchemaM → Option OASchemaM → SchemaM
  | .mk g r rg a e p h t ts s d _, o => .mk g r rg a e p h t ts s d o

/-- `Schema.IsRef` (schema.go lines 35-37). -/
def SchemaM.IsRef (s : SchemaM) : Bool := s.refType ≠ ""

/-- `Schema.TypeDecl` (schema.go lines 39-44). -/
def TypeDecl (s : SchemaM) : String := if s.IsRef then s.refType else s.goType

/-- `PropertiesEqual` (schema.go lines 149-151): same serialized field
name, same rendered type expression, same required flag. -/
def PropertiesEqual (a b : PData × SchemaM) : Bool :=
  a.1.jsonFieldName == b.1.jsonFieldName &&
    TypeDecl a.2 == TypeDecl b.2 && a.1.required == b.1.required

/-- The conflict scan of `Schema.AddProperty` (schema.go lines 52-57):
the first existing property with the same field name that is not
equivalent to `p`, reported as the source's error message. -/
def addPropertyConflict (p : PData × SchemaM) :
    List (PData × SchemaM) → Option String
  | [] => none
  | e :: rest =>
    if e.1.jsonFieldName == p.1.jsonFieldName && !PropertiesEqual e p then
      some ("property '" ++ e.1.jsonFieldName ++ "' already exists with a different type")
    else addPropertyConflict p rest

/-- `Schema.AddProperty` (schema.go lines 51-60). -/
def AddProperty (s : SchemaM) (p : PData × SchemaM) : Except String SchemaM :=
  match addPropertyConflict p s.properties with
  | some e => .error e
  | none => .ok (s.withProperties (s.properties ++ [p]))

/-- `Property.GoFieldName` (schema.go lines 82-84). -/
def GoFieldName (p : PData) : String := SchemaNameToTypeName p.jsonFieldName

/-- `Property.GoTypeDef` (schema.go lines 86-94). -/
def GoTypeDef (p : PData × SchemaM) : String :=
  let typeDef := TypeDecl p.2
  if !p.2.skipOptionalPointer &&
      (!p.1.required || p.1.nullable || p.1.readOnly || p.1.writeOnly) then
    "*" ++ typeDef
  else typeDef

/-! ## Comment rendering and struct rendering (utils.go 728-748, schema.go 516-591) -/

/-- Windows/Mac newlines normalized to `\n` (the source's two
`strings.Replace` passes, fused). -/
def normalizeNewlines : List Char → List Char
  | [] => []
  | '\r' :: '\n' :: rest => '\n' :: normalizeNewlines rest
  | '\r' :: rest => '\n' :: normalizeNewlines rest
  | c :: rest => c :: normalizeNewlines rest

/-- `unicode.IsSpace` on the ASCII fragment (for `strings.TrimSpace`). -/
def isSpaceGo (c : Char) : Bool :=
  c == ' ' || c == '\t' || c == '\n' || c == '\x0b' || c == '\x0c' || c == '\r'

/-- `strings.TrimSpace`. -/
def trimSpaceGo (l : List Char) : List Char :=
  ((l.dropWhile isSpaceGo).reverse.dropWhile isSpaceGo).reverse

/-- `strings.TrimSuffix`: the suffix removed once, when present. -/
def trimSuffixList (l suffix : List Char) : List Char :=
  if suffix.isSuffixOf l then l.take (l.length - suffix.length) else l

/-- `StringToGoComment` (utils.go lines 728-748). -/
def StringToGoComment (input : String) : String :=
  if input.data.isEmpty || (trimSpaceGo input.data).isEmpty then ""
  else
    let l := normalizeNewlines input.data
    let lines := splitOnChar '\n' l
    let joined := List.intercalate "\n".data (lines.map fun line => "// ".data ++ line)
    ⟨trimSuffixList joined "\n// ".data⟩

/-- `SortedStringKeys` (utils.go lines 258-267). -/
def SortedStringKeys (dict : List (String × String)) : List String :=
  sortStable keyLess (dict.map Prod.fst)

/-- Association-list lookup for the tag maps. -/
def lookupTag (k : String) : List (String × String) → Option String
  | [] => none
  | (k', v) :: rest => if k' == k then some v else lookupTag k rest

/-- Association-list lookup in a node's extension map. -/
def lookupExt (k : String) : List (String × ExtVal) → Option ExtVal
  | [] => none
  | (k', v) :: rest => if k' == k then some v else lookupExt k rest

/-- Modelled from the spec: the extension key for the explicit type-name
override consumed by the Structural Schema Compiler (`extPropGoType` is
defined outside the given source files). -/
def extPropGoType : String := "x-go-type"

/-- Modelled from the spec: the extension key for the explicit
serialized-field-name override. -/
def extGoFieldName : String := "x-go-name"

/-- Modelled from the spec: the extension key for the omit-on-empty
override. -/
def extPropOmitEmpty : String := "x-omitempty"

/-- Modelled from the spec: the extension key for additional
serialization-tag pairs. -/
def extPropExtraTags : String := "x-oapi-codegen-extra-tags"

/-- Modelled from the spec: `extTypeName` parses the type-name override
(a string-valued extension; anything else is an error). -/
def extTypeName : ExtVal → Except String String
  | .str s => .ok s
  | _ => .error "failed to convert type"

/-- Modelled from the spec: `extParseGoFieldName` parses the field-name
override. -/
def extParseGoFieldName : ExtVal → Except String String
  | .str s => .ok s
  | _ => .error "failed to convert field name"

/-- Modelled from the spec: `extParseOmitEmpty` parses the omit-empty
override. -/
def extParseOmitEmpty : ExtVal → Except String Bool
  | .bool b => .ok b
  | _ => .error "failed to convert omit-empty"

/-- Modelled from the spec: `extExtraTags` parses the extra-tag map. -/
def extExtraTags : ExtVal → Except String (List (String × String))
  | .tags m => .ok m
  | _ => .error "failed to convert extra tags"

/-- The body of `GenFieldsFromProperties`'s loop (schema.go lines
516-572), with the running index for the blank line before a comment. -/
def genFieldsLoop : Nat → List (PData × SchemaM) → List String
  | _, [] => []
  | i, p :: rest =>
    let field :=
      if p.1.description ≠ "" then
        (if i ≠ 0 then "\n" else "") ++ StringToGoComment p.1.description ++ "\n"
      else ""
    let goFieldName :=
      match lookupExt extGoFieldName p.1.extensions with
      | some v =>
        match extParseGoFieldName v with
        | .ok n => n
        | .error _ => GoFieldName p.1
      | none => GoFieldName p.1
    let field := field ++ "    " ++ goFieldName ++ " " ++ GoTypeDef p
    let omitEmpty :=
      match lookupExt extPropOmitEmpty p.1.extensions with
      | some v =>
        match extParseOmitEmpty v with
        | .ok b => b
        | .error _ => true
      | none => true
    let fieldTags :=
      if (p.1.required && !p.1.readOnly && !p.1.writeOnly) || p.1.nullable || !omitEmpty
      then [("json", p.1.jsonFieldName)]
      else [("json", p.1.jsonFieldName ++ ",omitempty")]
    let fieldTags :=
      match lookupExt extPropExtraTags p.1.extensions with
      | some v =>
        match extExtraTags v with
        | .ok tags =>
          (SortedStringKeys tags).foldl
            (fun ft k => upsert k ((lookupTag k tags).getD "") ft) fieldTags
        | .error _ => fieldTags
      | none => fieldTags
    let keys := SortedStringKeys fieldTags
    let tagLine := String.intercalate " "
      (keys.map fun k => k ++ ":\"" ++ ((lookupTag k fieldTags).getD "") ++ "\"")
    (field ++ "`" ++ tagLine ++ "`") :: genFieldsLoop (i + 1) rest

/-- `GenFieldsFromProperties` (schema.go lines 516-572). -/
def GenFieldsFromProperties (props : List (PData × SchemaM)) : List String :=
  genFieldsLoop 0 props

/-- `GenStructFromSchema` (schema.go lines 574-591). -/
def GenStructFromSchema (schema : SchemaM) : String :=
  let objectParts := "struct \x7b" :: GenFieldsFromProperties schema.properties
  let objectParts := objectParts ++
    (if schema.hasAdditionalProperties then
      let addPropsType :=
        match schema.additionalPropertiesType with
        | some t => if t.refType ≠ "" then t.refType else t.goType
        | none => ""
      ["AdditionalProperties map[string]" ++ addPropsType ++ " `json:\"-\"`"]
    else [])
  String.intercalate "\n" (objectParts ++ ["\x7d"])

/-- `SchemaHasAdditionalProperties` (utils.go lines 706-715). -/
def SchemaHasAdditionalProperties (schema : OASchemaM) : Bool :=
  match schema.additionalPropertiesAllowed with
  | some true => true
  | _ => schema.additionalProperties.isSome

/-! ## The Structural Schema Compiler (`GenerateGoSchema`, schema.go lines 153-497)

The Go functions `GenerateGoSchema`, `generateProperties`, `resolveType`
and `MergeSchemas` are mutually recursive through the schema graph,
which a cyclic document makes cyclic; the recursion is therefore indexed
by fuel.  `GenerateGoSchemaF` consumes one unit per call and hands the
remainder to its helpers as the callback `rec`; a result of `none` means
the fuel ran out (the computation did not complete within that many
nested `GenerateGoSchema` calls), `some r` that the source returns `r`
outright. -/

/-- The compiler's result within a fuel budget. -/
abbrev GenResult := Option (Except String SchemaM)

/-- The recursive entry point handed to the helpers. -/
abbrev GenRec := Option SchemaRefM → List String → GenResult

/-- `sref.Value`: the loader resolves every reference's `Value` pointer;
a dangling index (which the loader never produces) dereferences to the
empty schema. -/
def derefSchema (env : List OASchemaM) (sref : SchemaRefM) : OASchemaM :=
  env.getD sref.value {}

/-- `schema.Properties[pName]`: map lookup; `none` is Go's nil pointer
for a missing key (unreachable when `pName` comes from the key list). -/
def lookupProp (k : String) : List (String × SchemaRefM) → Option SchemaRefM
  | [] => none
  | (k', v) :: rest => if k' == k then some v else lookupProp k rest

/-- The property loop of `generateProperties` (schema.go lines 156-198)
over the sorted property names. -/
def genPropsLoop (rec : GenRec) (env : List OASchemaM) (schema : OASchemaM)
    (path : List String) : List String → SchemaM → GenResult
  | [], outSchema => some (.ok outSchema)
  | pName :: rest, outSchema =>
    let p? := lookupProp pName schema.properties
    let propertyPath := path ++ [pName]
    match rec p? propertyPath with
    | none => none
    | some (.error err) =>
      some (.error ("error generating Go schema for property '" ++ pName ++ "': " ++ err))
    | some (.ok pSchema) =>
      let required := StringInArray pName schema.required
      let pSchema :=
        if pSchema.hasAdditionalProperties && pSchema.refType == "" then
          let typeName := PathToTypeName propertyPath
          let typeDef : TData × SchemaM :=
            ({typeName := typeName, jsonName := String.intercalate "." propertyPath}, pSchema)
          (pSchema.withAdditionalTypes (pSchema.additionalTypes ++ [typeDef])).withRefType typeName
        else pSchema
      let pValue := (p?.map (derefSchema env)).getD {}
      let prop : PData × SchemaM :=
        ({description := pValue.description, jsonFieldName := pName,
          required := required, nullable := pValue.nullable,
          readOnly := pValue.readOnly, writeOnly := pValue.writeOnly,
          extensions := pValue.extensions}, pSchema)
      genPropsLoop rec env schema path rest
        (outSchema.withProperties (outSchema.properties ++ [prop]))

/-- `generateProperties` (schema.go lines 153-213). -/
def generatePropertiesGo (rec : GenRec) (env : List OASchemaM)
    (schema : OASchemaM) (path : List String) (outSchema : SchemaM) : GenResult :=
  match genPropsLoop rec env schema path (SortedSchemaKeys schema.properties) outSchema with
  | none => none
  | some (.error e) => some (.error e)
  | some (.ok outSchema) =>
    let outSchema := outSchema.withHasAdditionalProperties (SchemaHasAdditionalProperties schema)
    let outSchema := outSchema.withAdditionalPropertiesType
      (some (SchemaM.empty.withGoType "interface\x7b\x7d"))
    match schema.additionalProperties with
    | none => some (.ok outSchema)
    | some addRef =>
      match rec (some addRef) path with
      | none => none
      | some (.error err) =>
        some (.error ("error generating type for additional properties: " ++ err))
      | some (.ok additionalSchema) =>
        some (.ok (outSchema.withAdditionalPropertiesType (some additionalSchema)))

/-- `generateEnumValues` (schema.go lines 215-249).  The source's error
return is always nil, so the result is the schema alone.  The iteration
over the sanitized map uses its insertion order (a Go map's order is
unspecified; only the resulting map matters). -/
def generateEnumValuesGo (schema : OASchemaM) (path : List String)
    (outSchema : SchemaM) : SchemaM :=
  if schema.enum.isEmpty then outSchema
  else
    let sanitizedValues := SanitizeEnumNames schema.enum
    let ev := sanitizedValues.foldl
      (fun m kv =>
        let constNamePath := if kv.2 == "" then path ++ ["Empty"] else path ++ [kv.1]
        upsert (SchemaNameToEnumValueName (PathToTypeName constNamePath)) kv.2 m)
      []
    let outSchema := outSchema.withEnumValues ev
    if path.length > 1 then
      let typeName := SchemaNameToTypeName (PathToTypeName path)
      let typeDef : TData × SchemaM :=
        ({typeName := typeName, jsonName := String.intercalate "." path}, outSchema)
      (outSchema.withAdditionalTypes (outSchema.additionalTypes ++ [typeDef])).withRefType typeName
    else outSchema

/-- `resolveType` (schema.go lines 469-497). -/
def resolveTypeGo (rec : GenRec) (schema : OASchemaM) (path : List String)
    (outSchema : SchemaM) : GenResult :=
  match resolveGoType schema.format schema.type with
  | .error e => some (.error e)
  | .ok goType =>
    if goType == "array" then
      match rec schema.items path with
      | none => none
      | some (.error err) =>
        some (.error ("error generating type for array: " ++ err))
      | some (.ok arrayType) =>
        some (.ok ((((outSchema.withArrayType (some arrayType)).withGoType
          ("[]" ++ TypeDecl arrayType)).withAdditionalTypes
            arrayType.additionalTypes).withProperties arrayType.properties))
    else if goType == "json.RawMessage" then
      some (.ok ((outSchema.withSkipOptionalPointer true).withGoType goType))
    else
      some (.ok (outSchema.withGoType goType))

/-- Modelled from the spec: the loop of the Schema Merger (§4.4;
`MergeSchemas` is called at schema.go line 332 but defined outside the
given source files).  Each composed schema is compiled with the same
path; properties are united through `AddProperty` (equivalent
duplicates tolerated, a conflict is the merge's error); open properties
are enabled when any input enables them, and the first input to carry
an open-properties element type wins; enum values and auxiliary types
are united. -/
def mergeSchemasLoop (rec : GenRec) (path : List String) :
    List SchemaRefM → SchemaM → GenResult
  | [], acc => some (.ok acc)
  | sref :: rest, acc =>
    match rec (some sref) path with
    | none => none
    | some (.error e) => some (.error e)
    | some (.ok s) =>
      match s.properties.foldlM (fun a p => AddProperty a p) acc with
      | .error e => some (.error e)
      | .ok acc =>
        let acc := acc.withHasAdditionalProperties
          (acc.hasAdditionalProperties || s.hasAdditionalProperties)
        let acc :=
          if acc.additionalPropertiesType.isNone then
            acc.withAdditionalPropertiesType s.additionalPropertiesType
          else acc
        let acc := acc.withEnumValues
          (s.enumValues.foldl (fun m kv => upsert kv.1 kv.2 m) acc.enumValues)
        let acc := acc.withAdditionalTypes (acc.additionalTypes ++ s.additionalTypes)
        mergeSchemasLoop rec path rest acc

/-- Modelled from the spec: `MergeSchemas` (§4.4) produces one synthetic
object-kind node — the union computed by `mergeSchemasLoop`, rendered as
a struct type expression. -/
def MergeSchemas (rec : GenRec) (allOf : List SchemaRefM)
    (path : List String) : GenResult :=
  match mergeSchemasLoop rec path allOf SchemaM.empty with
  | none => none
  | some (.error e) => some (.error e)
  | some (.ok merged) => some (.ok (merged.withGoType (GenStructFromSchema merged)))

/-- The loop over `schemas` in the reference branch of
`GenerateGoSchema` (schema.go lines 289-306): the referenced schema's
own body first, then every `AllOf` member; each contributes its
compiled properties and enum values to the reference's node. -/
def refSchemasLoop (rec : GenRec) (env : List OASchemaM) (path : List String) :
    List OASchemaM → SchemaM → GenResult
  | [], outSchema => some (.ok outSchema)
  | scm :: rest, outSchema =>
    match generatePropertiesGo rec env scm path outSchema with
    | none => none
    | some (.error e) => some (.error e)
    | some (.ok new1) =>
      let new2 := generateEnumValuesGo scm path new1
      let outSchema := outSchema.withProperties (outSchema.properties ++ new2.properties)
      let outSchema := outSchema.withEnumValues
        (new2.enumValues.foldl (fun m kv => upsert kv.1 kv.2 m) outSchema.enumValues)
      refSchemasLoop rec env path rest outSchema

/-- `GenerateGoSchema` (schema.go lines 251-397), indexed by fuel. -/
def GenerateGoSchemaF (env : List OASchemaM) (imports : List (String × String)) :
    Nat → Option SchemaRefM → List String → GenResult
  | 0, _, _ => none
  | _ + 1, none, _ =>
    some (.ok (SchemaM.empty.withGoType "interface\x7b\x7d"))
  | fuel + 1, some sref, path =>
    let rec' : GenRec := GenerateGoSchemaF env imports fuel
    let schema := derefSchema env sref
    if IsGoTypeReference sref.ref then
      match RefPathToGoType imports sref.ref with
      | none => none
      | some (.error err) =>
        some (.error ("error turning reference (" ++ sref.ref ++ ") into a Go type: " ++ err))
      | some (.ok refType) =>
        let schemas := schema ::
          (match schema.allOf with
           | some l => l.map (derefSchema env)
           | none => [])
        let refGoType :=
          match resolveGoType schema.format schema.type with
          | .ok t => t
          | .error _ => ""
        let outSchema := ((SchemaM.empty.withGoType refType).withRefGoType
          refGoType).withDescription (StringToGoComment schema.description)
        refSchemasLoop rec' env path schemas outSchema
    else
      let outSchema := (SchemaM.empty.withDescription
        (StringToGoComment schema.description)).withOapiSchema (some schema)
      if schema.anyOf.isSome then
        some (.ok (outSchema.withGoType "interface\x7b\x7d"))
      else if schema.oneOf.isSome then
        some (.ok (outSchema.withGoType "interface\x7b\x7d"))
      else if schema.allOf.isSome then
        match MergeSchemas rec' (schema.allOf.getD []) path with
        | none => none
        | some (.error e) => some (.error ("error merging schemas: " ++ e))
        | some (.ok merged) => some (.ok (merged.withOapiSchema (some schema)))
      else
        match lookupExt extPropGoType schema.extensions with
        | some extension =>
          (match extTypeName extension with
           | .error e =>
             some (.error ("invalid value for \"" ++ extPropGoType ++ "\": " ++ e))
           | .ok typeName => some (.ok (outSchema.withGoType typeName)))
        | none =>
          let t := schema.type
          if t == "" || t == "object" then
            if schema.properties.isEmpty && !SchemaHasAdditionalProperties schema then
              some (.ok (outSchema.withGoType
                (if t == "object" then "map[string]interface\x7b\x7d" else "interface\x7b\x7d")))
            else
              match generatePropertiesGo rec' env schema path outSchema with
              | none => none
              | some (.error e) => some (.error e)
              | some (.ok out1) =>
                some (.ok (out1.withGoType (GenStructFromSchema out1)))
          else if !schema.enum.isEmpty then
            match resolveTypeGo rec' schema path outSchema with
            | none => none
            | some (.error e) =>
              some (.error ("error resolving primitive type: " ++ e))
            | some (.ok out1) =>
              some (.ok (generateEnumValuesGo schema path out1))
          else
            match resolveTypeGo rec' schema path outSchema with
            | none => none
            | some (.error e) =>
              some (.error ("error resolving primitive type: " ++ e))
            | some (.ok out1) => some (.ok out1)

/-! ## Specification-side definitions and concrete fixtures -/

/-- Whether the pattern `w([^a-z]+|$)` matches anywhere in `l`: some
position carries `w` followed by the end of the string or by a
non-lowercase rune. -/
def hasAbbrevMatch (w : List Char) : List Char → Bool
  | [] => false
  | c :: cs =>
    (w.isPrefixOf (c :: cs) &&
      (((c :: cs).drop w.length).isEmpty ||
        !(((c :: cs).drop w.length).takeWhile nonLowerChar).isEmpty)) ||
    hasAbbrevMatch w cs

/-- Claim step (2) of the Enum Extractor, as the spec words it: when any
surviving literal contains a separator, all literals are lower-cased
before sanitizing. -/
def lowerAllIfMultiWord (l : List String) : List String :=
  if l.any containsSeparator then l.map toLowerStr else l

/-- Claim step (3): the candidate identifier of one literal, through the
Naming Transform and the Identifier Sanitizer. -/
def enumCandidate (s : String) : String :=
  sanitizeGoIdentityCore (SchemaNameToEnumValueName s)

/-- Claim step (4): collision resolution over the candidate sequence.
`seen` is the list of earlier candidates; an entry whose candidate
already occurred `k > 0` times before it gets the numeric suffix `k`
(the first occurrence, with count 0, keeps the bare candidate). -/
def suffixCollisions (seen : List String) : List String → List String
  | [] => []
  | c :: cs =>
    (if seen.count c == 0 then c else c ++ toString (seen.count c)) ::
      suffixCollisions (seen ++ [c]) cs

/-- The Enum Extractor as the claim describes it, step by step:
deduplicate keeping first occurrences, conditionally lower-case,
sanitize each literal into a candidate, resolve collisions by numeric
suffix, and read the resulting (identifier, literal) sequence as map
insertions. -/
def specSanitizeEnumNames (names : List String) : List (String × String) :=
  let d := dedupKeepFirst [] names
  (((suffixCollisions [] ((lowerAllIfMultiWord d).map enumCandidate)).zip d).foldl
    (fun m kv => upsert kv.1 kv.2 m) [])

/-- The schema `Foo` of a minimal cyclic document:
`Foo: {type: object, properties: {self: {$ref: "#/components/schemas/Foo"}}}` —
the property's reference resolves back to `Foo` itself (index 0). -/
def fooSchema : OASchemaM :=
  { type := "object",
    properties := [("self", ⟨"#/components/schemas/Foo", 0⟩)] }

/-- The one-schema cyclic document. -/
def cycEnv : List OASchemaM := [fooSchema]

/-- The `self` property's `SchemaRef`: `$ref` back to `Foo`. -/
def selfRef : SchemaRefM := ⟨"#/components/schemas/Foo", 0⟩

/-- The `SchemaRef` under which the definition of `Foo` itself is
compiled (no `$ref`, value `Foo`). -/
def fooDefRef : SchemaRefM := ⟨"", 0⟩

/-- An acyclic two-schema document: an object with one required string
property, for checking that the fuel-indexed compiler does complete on
well-founded inputs. -/
def plainEnv : List OASchemaM :=
  [{ type := "object", properties := [("name", ⟨"", 1⟩)], required := ["name"] },
   { type := "string" }]

/-! ## Helper lemmas -/

theorem underscore_data (s : String) : ("_" ++ s).data = '_' :: s.data := by
  simp [String.data_append]

theorem contains_false_of_heads (l : List String) (s : String)
    (h : l.all (fun w => w.data.head? != some '_') = true) :
    l.contains ("_" ++ s) = false := by
  induction l with
  | nil => rfl
  | cons w ws ih =>
    simp only [List.all_cons, Bool.and_eq_true] at h
    have hne : ("_" ++ s) ≠ w := by
      intro he
      rw [← he, underscore_data] at h
      simp at h
    simpa [List.contains_cons, hne] using ih h.2

theorem not_keyword_underscore (s : String) : IsGoKeyword ("_" ++ s) = false :=
  contains_false_of_heads goKeywords s (by decide)

theorem not_predeclared_underscore (s : String) :
    IsPredeclaredGoIdentifier ("_" ++ s) = false :=
  contains_false_of_heads predeclaredIdentifiers s (by decide)

/-! ## C5 — the Primitive Type Mapper -/

/-- C5: `resolveGoType` on base kind `boolean` errors exactly when the
format is non-empty; on base kind `string` it never errors, mapping the
six recognized formats to their special types and everything else to
plain `string`; on base kind `integer` it maps the fixed-width and
platform-width formats to themselves, the empty format to the platform
signed `int`, and errors on everything else. -/
theorem c5_resolve_go_type :
    (∀ f : String, resolveGoType f "boolean" =
        if f = "" then .ok "bool"
        else .error ("invalid format (" ++ f ++ ") for boolean"))
  ∧ (∀ f : String, resolveGoType f "string" =
        .ok (if f = "byte" then "[]byte"
          else if f = "email" then "openapi_types.Email"
          else if f = "date" then "openapi_types.Date"
          else if f = "date-time" then "time.Time"
          else if f = "json" then "json.RawMessage"
          else if f = "uuid" then "openapi_types.UUID"
          else "string"))
  ∧ (∀ f : String, resolveGoType f "integer" =
        if f = "int64" ∨ f = "int32" ∨ f = "int16" ∨ f = "int8" ∨ f = "int"
            ∨ f = "uint64" ∨ f = "uint32" ∨ f = "uint16" ∨ f = "uint8" ∨ f = "uint"
        then .ok f
        else if f = "" then .ok "int"
        else .error ("invalid integer format: " ++ f)) := by
  refine ⟨fun f => ?_, fun f => ?_, fun f => ?_⟩
  · by_cases h : f = ""
    · subst h; rfl
    · simp [resolveGoType, h]
  · by_cases h1 : f = "byte"
    · subst h1; rfl
    by_cases h2 : f = "email"
    · subst h2; rfl
    by_cases h3 : f = "date"
    · subst h3; rfl
    by_cases h4 : f = "date-time"
    · subst h4; rfl
    by_cases h5 : f = "json"
    · subst h5; rfl
    by_cases h6 : f = "uuid"
    · subst h6; rfl
    simp [resolveGoType, h1, h2, h3, h4, h5, h6]
  · by_cases h1 : f = "int64"
    · subst h1; rfl
    by_cases h2 : f = "int32"
    · subst h2; rfl
    by_cases h3 : f = "int16"
    · subst h3; rfl
    by_cases h4 : f = "int8"
    · subst h4; rfl
    by_cases h5 : f = "int"
    · subst h5; rfl
    by_cases h6 : f = "uint64"
    · subst h6; rfl
    by_cases h7 : f = "uint32"
    · subst h7; rfl
    by_cases h8 : f = "uint16"
    · subst h8; rfl
    by_cases h9 : f = "uint8"
    · subst h9; rfl
    by_cases h10 : f = "uint"
    · subst h10; rfl
    by_cases h11 : f = ""
    · subst h11; rfl
    simp [resolveGoType, h1, h2, h3, h4, h5, h6, h7, h8, h9, h10, h11]

/-! ## C9 — the sanitizer's internal panic is unreachable -/

/-- C9: `SanitizeGoIdentity` returns normally on every input: the final
`IsValidGoIdentity` check always passes (because `IsGoIdentity`'s last
condition returns whether the string is a Go keyword, and the prefixing
step has just ruled keywords and predeclared identifiers out), so the
`panic("here is a bug")` is unreachable and the result is exactly the
replace-and-prefix computation `sanitizeGoIdentityCore`. -/
theorem c9_sanitize_check_unreachable (str : String) :
    SanitizeGoIdentity str = some (sanitizeGoIdentityCore str) := by
  have hval : IsValidGoIdentity (sanitizeGoIdentityCore str) = true := by
    unfold sanitizeGoIdentityCore
    by_cases hkp : (IsGoKeyword ⟨sanitizeRunes str.data⟩
        || IsPredeclaredGoIdentifier ⟨sanitizeRunes str.data⟩) = true
    · simp only [hkp, if_true]
      simp [IsValidGoIdentity, IsGoIdentity, not_keyword_underscore,
        not_predeclared_underscore]
    · have h := Bool.or_eq_false_iff.mp (Bool.eq_false_iff.mpr hkp)
      simp only [Bool.or_eq_true] at hkp
      push_neg at hkp
      simp only [h.1, h.2, Bool.or_self, if_false]
      simp [IsValidGoIdentity, IsGoIdentity, h.1, h.2]
  simp [SanitizeGoIdentity, hval]

/-! ## C6 — property merging -/

theorem addPropertyConflict_none_iff (p : PData × SchemaM) (l : List (PData × SchemaM)) :
    addPropertyConflict p l = none ↔
      ∀ e ∈ l, e.1.jsonFieldName = p.1.jsonFieldName → PropertiesEqual e p = true := by
  induction l with
  | nil => simp [addPropertyConflict]
  | cons e es ih =>
    simp only [addPropertyConflict]
    by_cases hc : (e.1.jsonFieldName == p.1.jsonFieldName && !PropertiesEqual e p) = true
    · rw [if_pos hc]
      rw [Bool.and_eq_true, beq_iff_eq, Bool.not_eq_true'] at hc
      constructor
      · intro h; simp at h
      · intro h
        have h2 := h e (List.mem_cons_self e es) hc.1
        rw [h2] at hc
        simp at hc
    · rw [if_neg hc]
      rw [ih]
      constructor
      · intro h e' he' hname
        rcases List.mem_cons.mp he' with rfl | hmem
        · by_contra hne
          apply hc
          rw [Bool.and_eq_true, beq_iff_eq, Bool.not_eq_true']
          refine ⟨hname, ?_⟩
          cases hb : PropertiesEqual e' p
          · rfl
          · exact absurd hb hne
        · exact h e' hmem hname
      · intro h e' he' hname
        exact h e' (List.mem_cons_of_mem e he') hname

theorem addPropertyConflict_some_elim (p : PData × SchemaM) :
    ∀ (l : List (PData × SchemaM)) (msg : String), addPropertyConflict p l = some msg →
      ∃ e ∈ l, e.1.jsonFieldName = p.1.jsonFieldName ∧ PropertiesEqual e p = false ∧
        msg = "property '" ++ e.1.jsonFieldName ++ "' already exists with a different type" := by
  intro l
  induction l with
  | nil => intro msg h; simp [addPropertyConflict] at h
  | cons e es ih =>
    intro msg h
    simp only [addPropertyConflict] at h
    by_cases hc : (e.1.jsonFieldName == p.1.jsonFieldName && !PropertiesEqual e p) = true
    · rw [if_pos hc] at h
      rw [Bool.and_eq_true, beq_iff_eq, Bool.not_eq_true'] at hc
      refine ⟨e, List.mem_cons_self e es, hc.1, hc.2, ?_⟩
      exact (Option.some.injEq _ _ ▸ h).symm
    · rw [if_neg hc] at h
      obtain ⟨e', he', h1, h2, h3⟩ := ih msg h
      exact ⟨e', List.mem_cons_of_mem e he', h1, h2, h3⟩

/-- C6: `AddProperty` fails exactly when an already-present property has
the same serialized field name but is not equivalent to the new one,
where equivalence (`PropertiesEqual`) is identity of source name,
rendered type expression and required flag; the failure message names
the conflicting field, and adding an equivalent duplicate always
succeeds, appending the property. -/
theorem c6_add_property :
    (∀ a b : PData × SchemaM, PropertiesEqual a b = true ↔
        a.1.jsonFieldName = b.1.jsonFieldName ∧ TypeDecl a.2 = TypeDecl b.2 ∧
          a.1.required = b.1.required)
  ∧ (∀ (s : SchemaM) (p : PData × SchemaM),
        (∃ msg, AddProperty s p = .error msg) ↔
          ∃ e ∈ s.properties, e.1.jsonFieldName = p.1.jsonFieldName ∧
            PropertiesEqual e p = false)
  ∧ (∀ (s : SchemaM) (p : PData × SchemaM) (msg : String), AddProperty s p = .error msg →
        ∃ e ∈ s.properties, e.1.jsonFieldName = p.1.jsonFieldName ∧
          PropertiesEqual e p = false ∧
          msg = "property '" ++ e.1.jsonFieldName ++ "' already exists with a different type")
  ∧ (∀ (s : SchemaM) (p : PData × SchemaM),
        (∀ e ∈ s.properties, e.1.jsonFieldName = p.1.jsonFieldName →
            PropertiesEqual e p = true) →
          AddProperty s p = .ok (s.withProperties (s.properties ++ [p]))) := by
  refine ⟨?_, ?_, ?_, ?_⟩
  · intro a b
    simp [PropertiesEqual, Bool.and_eq_true, and_assoc]
  · intro s p
    constructor
    · rintro ⟨msg, hmsg⟩
      unfold AddProperty at hmsg
      cases hcf : addPropertyConflict p s.properties with
      | none => rw [hcf] at hmsg; simp at hmsg
      | some m =>
        obtain ⟨e, he, h1, h2, _⟩ := addPropertyConflict_some_elim p s.properties m hcf
        exact ⟨e, he, h1, h2⟩
    · rintro ⟨e, he, h1, h2⟩
      unfold AddProperty
      cases hcf : addPropertyConflict p s.properties with
      | none =>
        have := (addPropertyConflict_none_iff p s.properties).mp hcf e he h1
        rw [this] at h2
        simp at h2
      | some m => exact ⟨m, rfl⟩
  · intro s p msg h
    unfold AddProperty at h
    cases hcf : addPropertyConflict p s.properties with
    | none => rw [hcf] at h; simp at h
    | some m =>
      rw [hcf] at h
      obtain ⟨e, he, h1, h2, h3⟩ := addPropertyConflict_some_elim p s.properties m hcf
      refine ⟨e, he, h1, h2, ?_⟩
      cases h
      exact h3
  · intro s p h
    unfold AddProperty
    rw [(addPropertyConflict_none_iff p s.properties).mpr h]

/-! ## C8 — the Identifier Sanitizer's guarantees -/

theorem digit_beq_false (c d : Char) (h : c.isDigit = true) (hd : d.isDigit = false) :
    (c == d) = false := by
  cases hb : c == d
  · rfl
  · have h2 : d.isDigit = true := eq_of_beq hb ▸ h
    rw [h2] at hd
    cases hd

/-- C8: the Identifier Sanitizer's result is never a Go keyword and
never a predeclared identifier (collisions are resolved by the
underscore prefix); sanitizing a name whose first rune is a digit
yields a result headed by the sanitizer's prefix marker `_` — not a
digit — and the Naming Transform's `SchemaNameToTypeName` heads such a
name with its digit-prefix marker `N`; concretely for `"2fast"`. -/
theorem c8_identifier_sanitizer :
    (∀ s : String, IsGoKeyword (sanitizeGoIdentityCore s) = false)
  ∧ (∀ s : String, IsPredeclaredGoIdentifier (sanitizeGoIdentityCore s) = false)
  ∧ (∀ (s : String) (c : Char) (cs : List Char), s.data = c :: cs → c.isDigit = true →
      (sanitizeGoIdentityCore s).data.head? = some '_')
  ∧ (∀ (s : String) (c : Char) (cs : List Char), s.data = c :: cs → c.isDigit = true →
      (SchemaNameToTypeName s).data.head? = some 'N')
  ∧ sanitizeGoIdentityCore "2fast" = "_fast"
  ∧ SchemaNameToTypeName "2fast" = "N2fast" := by
  have hcore : ∀ s : String, IsGoKeyword (sanitizeGoIdentityCore s) = false ∧
      IsPredeclaredGoIdentifier (sanitizeGoIdentityCore s) = false := by
    intro s
    unfold sanitizeGoIdentityCore
    by_cases hkp : (IsGoKeyword ⟨sanitizeRunes s.data⟩
        || IsPredeclaredGoIdentifier ⟨sanitizeRunes s.data⟩) = true
    · simp only [hkp, if_true]
      exact ⟨not_keyword_underscore _, not_predeclared_underscore _⟩
    · have h := Bool.or_eq_false_iff.mp (Bool.eq_false_iff.mpr hkp)
      simp only [h.1, h.2, Bool.or_self, if_false]
      exact h
  refine ⟨fun s => (hcore s).1, fun s => (hcore s).2, ?_, ?_, by decide, by decide⟩
  · intro s c cs hdata hdig
    unfold sanitizeGoIdentityCore
    have hrunes : sanitizeRunes s.data = '_' :: (cs.map fun d =>
        if isValidRuneForGoID false d then d else '_') := by
      rw [hdata]
      simp [sanitizeRunes, isValidRuneForGoID, hdig]
    by_cases hkp : (IsGoKeyword ⟨sanitizeRunes s.data⟩
        || IsPredeclaredGoIdentifier ⟨sanitizeRunes s.data⟩) = true
    · simp only [hkp, if_true]
      rw [underscore_data]
      rfl
    · simp only [Bool.eq_false_iff.mpr hkp, Bool.false_eq_true, if_false]
      rw [hrunes]
      rfl
  · intro s c cs hdata hdig
    have hpfx : typeNamePfx s = "N" := by
      unfold typeNamePfx
      rw [hdata]
      simp only [typeNamePfxLoop,
        digit_beq_false c '$' hdig (by decide), digit_beq_false c '-' hdig (by decide),
        digit_beq_false c '+' hdig (by decide), digit_beq_false c '&' hdig (by decide),
        digit_beq_false c '~' hdig (by decide), digit_beq_false c '=' hdig (by decide),
        digit_beq_false c '#' hdig (by decide), digit_beq_false c '.' hdig (by decide),
        Bool.false_eq_true, if_false, List.isEmpty_nil, Bool.true_and, hdig, if_true]
    unfold SchemaNameToTypeName
    rw [hpfx, String.data_append]
    rfl

/-! ## C2 — the Ordering Utility -/

theorem lexBytes_asymm : ∀ a b : List Nat, lexBytes a b = true → lexBytes b a = false
  | [], [] => by simp [lexBytes]
  | [], _ :: _ => by simp [lexBytes]
  | _ :: _, [] => by simp [lexBytes]
  | x :: xs, y :: ys => by
    simp only [lexBytes]
    by_cases h1 : x < y
    · intro _
      rw [if_neg (by omega), if_pos h1]
    · rw [if_neg h1]
      by_cases h2 : y < x
      · simp [h2]
      · rw [if_neg h2, if_neg h2, if_neg h1]
        exact lexBytes_asymm xs ys

theorem lexBytes_total : ∀ a b : List Nat, a ≠ b → (lexBytes a b || lexBytes b a) = true
  | [], [] => by intro h; exact absurd rfl h
  | [], _ :: _ => by simp [lexBytes]
  | _ :: _, [] => by simp [lexBytes]
  | x :: xs, y :: ys => by
    intro hne
    simp only [lexBytes]
    by_cases h1 : x < y
    · simp [h1]
    · by_cases h2 : y < x
      · simp [h1, h2]
      · have hxy : x = y := by omega
        subst hxy
        have hne2 : xs ≠ ys := fun h => hne (by rw [h])
        simp only [if_neg h1]
        simpa using lexBytes_total xs ys hne2

theorem lexBytes_trans : ∀ a b c : List Nat,
    lexBytes a b = true → lexBytes b c = true → lexBytes a c = true
  | _, [], [] => by simp [lexBytes]
  | _, _ :: _, [] => by simp [lexBytes]
  | [], _, _ :: _ => by simp [lexBytes]
  | _ :: _, [], _ :: _ => by simp [lexBytes]
  | x :: xs, y :: ys, z :: zs => by
    simp only [lexBytes]
    by_cases h1 : x < y
    · by_cases h2 : y < z
      · intro _ _; rw [if_pos (by omega)]
      · by_cases h3 : z < y
        · simp [h2, h3]
        · intro _ _
          rw [if_pos (by omega)]
    · by_cases h4 : y < x
      · simp [h1, h4]
      · have hxy : x = y := by omega
        subst hxy
        by_cases h2 : x < z
        · intro _ _; rw [if_pos h2]
        · by_cases h3 : z < x
          · simp [h2, h3]
          · rw [if_neg h1, if_neg h1, if_neg h2, if_neg h2, if_neg h3, if_neg h3]
            exact lexBytes_trans xs ys zs

theorem keySliceLess_long (a b : List Nat) (ha : equalFoldID a = false)
    (hb : equalFoldID b = false) (h3a : 3 < a.length) (h3b : 3 < b.length) :
    keySliceLess a b =
      (if endsAt a && endsAt b then lexBytes a b
       else if endsAt a then false
       else if endsAt b then true
       else lexBytes a b) := by
  have h3 : ¬((decide (a.length ≤ 3) || decide (b.length ≤ 3)) = true) := by
    simp
    omega
  simp only [keySliceLess, ha, hb, Bool.false_eq_true, if_false, if_neg h3]

theorem keySliceLess_short (a b : List Nat) (ha : equalFoldID a = false)
    (hb : equalFoldID b = false) (h : a.length ≤ 3 ∨ b.length ≤ 3) :
    keySliceLess a b = lexBytes a b := by
  have h3 : (decide (a.length ≤ 3) || decide (b.length ≤ 3)) = true := by
    rcases h with h | h <;> simp [h]
  simp only [keySliceLess, ha, hb, Bool.false_eq_true, if_false, h3, if_true]

/-- C2 (amended): the comparator sorts a key case-insensitively equal
to `"id"` before everything; among keys of byte length greater than 3
that are not `"id"`, a key ending in `"_at"` sorts after one that does
not, same-class keys compare lexicographically by byte, and the
relation restricted to such keys is a strict total order; a comparison
in which either key has byte length at most 3 (including the key
`"_at"` itself) falls back to plain lexicographic order, ignoring the
`"_at"` rule; sorting `["id","created_at","name","updated_at"]` yields
`["id","name","created_at","updated_at"]`. -/
theorem c2_key_ordering_amended :
    (∀ a b : List Nat, equalFoldID a = true → keySliceLess a b = true)
  ∧ (∀ a b : List Nat, equalFoldID a = false → equalFoldID b = true →
      keySliceLess a b = false)
  ∧ (∀ a b : List Nat, equalFoldID a = false → equalFoldID b = false →
      3 < a.length → 3 < b.length → endsAt a = true → endsAt b = false →
      keySliceLess a b = false ∧ keySliceLess b a = true)
  ∧ (∀ a b : List Nat, equalFoldID a = false → equalFoldID b = false →
      3 < a.length → 3 < b.length → endsAt a = endsAt b →
      keySliceLess a b = lexBytes a b)
  ∧ (∀ a b : List Nat, equalFoldID a = false → equalFoldID b = false →
      (a.length ≤ 3 ∨ b.length ≤ 3) →
      keySliceLess a b = lexBytes a b)
  ∧ (∀ a b : List Nat, equalFoldID a = false → equalFoldID b = false →
      3 < a.length → 3 < b.length → a ≠ b →
      (keySliceLess a b || keySliceLess b a) = true ∧
        (keySliceLess a b && keySliceLess b a) = false)
  ∧ (∀ a b c : List Nat, equalFoldID a = false → equalFoldID b = false →
      equalFoldID c = false → 3 < a.length → 3 < b.length → 3 < c.length →
      keySliceLess a b = true → keySliceLess b c = true → keySliceLess a c = true)
  ∧ sortStable keyLess ["id", "created_at", "name", "updated_at"]
      = ["id", "name", "created_at", "updated_at"]
  ∧ SortedSchemaKeys [("id", 1), ("created_at", 2), ("name", 3), ("updated_at", 4)]
      = ["id", "name", "created_at", "updated_at"] := by
  refine ⟨?_, ?_, ?_, ?_, keySliceLess_short, ?_, ?_, by decide, by decide⟩
  · intro a b ha
    simp [keySliceLess, ha]
  · intro a b ha hb
    simp [keySliceLess, ha, hb]
  · intro a b ha hb h3a h3b hat hbt
    rw [keySliceLess_long a b ha hb h3a h3b, keySliceLess_long b a hb ha h3b h3a]
    simp [hat, hbt]
  · intro a b ha hb h3a h3b heq
    rw [keySliceLess_long a b ha hb h3a h3b]
    cases hat : endsAt a
    · rw [hat] at heq
      simp [hat, ← heq]
    · rw [hat] at heq
      simp [hat, ← heq]
  · intro a b ha hb h3a h3b hne
    have e1 := keySliceLess_long a b ha hb h3a h3b
    have e2 := keySliceLess_long b a hb ha h3b h3a
    cases hat : endsAt a <;> cases hbt : endsAt b <;>
      rw [hat, hbt] at e1 e2 <;> simp at e1 e2
    · rw [e1, e2]
      refine ⟨lexBytes_total a b hne, ?_⟩
      cases hl : lexBytes a b
      · simp
      · simp [lexBytes_asymm a b hl]
    · rw [e1, e2]; exact ⟨rfl, rfl⟩
    · rw [e1, e2]; exact ⟨rfl, rfl⟩
    · rw [e1, e2]
      refine ⟨lexBytes_total a b hne, ?_⟩
      cases hl : lexBytes a b
      · simp
      · simp [lexBytes_asymm a b hl]
  · intro a b c ha hb hc h3a h3b h3c hab hbc
    rw [keySliceLess_long a b ha hb h3a h3b] at hab
    rw [keySliceLess_long b c hb hc h3b h3c] at hbc
    rw [keySliceLess_long a c ha hc h3a h3c]
    cases hat : endsAt a <;> cases hbt : endsAt b <;> cases hct : endsAt c <;>
      rw [hat, hbt] at hab <;> rw [hbt, hct] at hbc <;> simp_all
    · exact lexBytes_trans a b c hab hbc
    · exact lexBytes_trans a b c hab hbc

/-- C2 counterexample: `"a_at"` ends in `"_at"` yet sorts before the
non-`"_at"` key `"b"` (the comparator ignores the `"_at"` rule whenever
either key has at most 3 bytes), and the three keys `"a_at"`, `"b"`,
`"cccc"` form a strict cycle under `keySlice.Less`, so the relation is
not a total order. -/
theorem c2_key_ordering_cex :
    keyLess "a_at" "b" = true ∧ keyLess "b" "cccc" = true ∧
    keyLess "cccc" "a_at" = true ∧
    endsAt (strBytes "a_at") = true ∧ endsAt (strBytes "b") = false ∧
    endsAt (strBytes "cccc") = false := by decide

/-! ## C7 — whole-word initialism replacement -/

theorem replaceAbbrevFuel_no_match (w canon : List Char) :
    ∀ (fuel : Nat) (l : List Char), l.length ≤ fuel →
      hasAbbrevMatch w l = false → replaceAbbrevFuel w canon fuel l = l := by
  intro fuel
  induction fuel with
  | zero =>
    intro l hl _
    cases l with
    | nil => rfl
    | cons c cs => simp at hl
  | succ n ih =>
    intro l hl hm
    cases l with
    | nil => rfl
    | cons c cs =>
      simp only [hasAbbrevMatch, Bool.or_eq_false_iff] at hm
      simp only [replaceAbbrevFuel]
      by_cases hp : w.isPrefixOf (c :: cs) = true
      · have hx : (((c :: cs).drop w.length).isEmpty ||
            !(((c :: cs).drop w.length).takeWhile nonLowerChar).isEmpty) = false := by
          have := hm.1
          rw [hp, Bool.true_and] at this
          exact this
        rw [Bool.or_eq_false_iff] at hx
        have hrun : (((c :: cs).drop w.length).takeWhile nonLowerChar).isEmpty = true := by
          have := hx.2
          cases hr : (((c :: cs).drop w.length).takeWhile nonLowerChar).isEmpty
          · rw [hr] at this; cases this
          · rfl
        rw [if_pos hp, if_pos hrun, if_neg (by simp [hx.1])]
        rw [ih cs (by simpa using Nat.le_of_succ_le_succ hl) hm.2]
      · rw [if_neg hp]
        rw [ih cs (by simpa using Nat.le_of_succ_le_succ hl) hm.2]

theorem foldl_replaceAbbrev_no_match (ps : List (String × String)) :
    ∀ l : List Char, (∀ p ∈ ps, hasAbbrevMatch p.2.data l = false) →
      ps.foldl (fun s p => replaceAbbrev p.2.data p.1.data s) l = l := by
  induction ps with
  | nil => intro l _; rfl
  | cons p ps ih =>
    intro l h
    simp only [List.foldl_cons]
    rw [show replaceAbbrev p.2.data p.1.data l = l from
      replaceAbbrevFuel_no_match _ _ _ l le_rfl (h p (List.mem_cons_self p ps))]
    exact ih l fun q hq => h q (List.mem_cons_of_mem p hq)

/-- C7 (amended): an initialism replacement rewrites an occurrence of
its word only when the occurrence is followed by a non-lowercase rune
or by the end of the string; a string with no such occurrence — in
particular a longer word whose continuation after the initialism's
letters is a lowercase letter, like `"Ideal"` — is left unchanged by
`fixCamelCaseAbbrev`.  An occurrence followed by a digit or an
uppercase letter inside a longer word is, however, rewritten (see the
counterexample). -/
theorem c7_initialism_amended :
    (∀ (w canon l : List Char), hasAbbrevMatch w l = false →
      replaceAbbrev w canon l = l)
  ∧ (∀ l : List Char, (∀ p ∈ commonInitialisms, hasAbbrevMatch p.2.data l = false) →
      fixCamelCaseAbbrev l = l)
  ∧ ToPascalCase "ideal" = "Ideal"
  ∧ (∀ p ∈ commonInitialisms, hasAbbrevMatch p.2.data "Ideal".data = false) := by
  refine ⟨?_, ?_, by decide, by decide⟩
  · intro w canon l hm
    exact replaceAbbrevFuel_no_match w canon l.length l le_rfl hm
  · intro l h
    exact foldl_replaceAbbrev_no_match commonInitialisms l h

/-- C7 counterexample: the input `"sla4ck"` case-converts to the single
camel-case word `"Sla4ck"` (no uppercase rune after its head), which
merely begins with the letters of the initialism `SLA` and does not
equal them — yet `fixCamelCaseAbbrev` rewrites its proper prefix,
producing `"SLA4ck"`: the digit after the initialism satisfies the
regular expression's `[^a-z]` continuation, so the match is not
whole-word. -/
theorem c7_initialism_cex :
    camelLoop true (trimSpaces "sla4ck".data) = "Sla4ck".data ∧
    "Sla".data.isPrefixOf "Sla4ck".data = true ∧
    "Sla4ck".data ≠ "Sla".data ∧
    ("Sla4ck".data.drop 1).all (fun c => !c.isUpper) = true ∧
    fixCamelCaseAbbrev "Sla4ck".data = "SLA4ck".data ∧
    ToPascalCase "sla4ck" = "SLA4ck" := by decide

/-! ## C3, C10 — the Reference Resolver -/

theorem refPathToGoType_hash (imports : List (String × String)) (isLocal : Bool)
    (p : String) (rest : List Char) (hdata : p.data = '#' :: rest) :
    refPathToGoType imports isLocal p = some (fragmentRefToGoType isLocal p) := by
  unfold refPathToGoType
  rw [hdata]
  simp

theorem fragment_local_cases (p : String) :
    fragmentRefToGoType true p =
      if (splitOnChar '/' p.data).length = 4
      then .ok (SchemaNameToTypeName ⟨(splitOnChar '/' p.data).getLastD []⟩)
      else .error ("unexpected reference depth: " ++
        toString (splitOnChar '/' p.data).length ++ " for ref: " ++ p ++ " local: " ++ "true") := by
  unfold fragmentRefToGoType
  by_cases h4 : (splitOnChar '/' p.data).length = 4
  · simp [h4]
  · simp [h4]

theorem fragment_nonlocal_cases (p : String) :
    fragmentRefToGoType false p =
      if (splitOnChar '/' p.data).length = 4 ∨ (splitOnChar '/' p.data).length = 2
      then .ok (SchemaNameToTypeName ⟨(splitOnChar '/' p.data).getLastD []⟩)
      else .error ("unexpected reference depth: " ++
        toString (splitOnChar '/' p.data).length ++ " for ref: " ++ p ++ " local: " ++ "false") := by
  unfold fragmentRefToGoType
  by_cases h4 : (splitOnChar '/' p.data).length = 4
  · simp [h4]
  · by_cases h2 : (splitOnChar '/' p.data).length = 2
    · simp [h4, h2]
    · simp [h4, h2]

theorem refPathToGoType_nonhash (imports : List (String × String))
    (isLocal : Bool) (p : String) (c : Char) (rest : List Char)
    (hdata : p.data = c :: rest) (hc : (c == '#') = false) :
    refPathToGoType imports isLocal p =
      (match splitOnChar '#' p.data with
       | [remoteComponent, flatComponent] =>
         (match lookupImport ⟨remoteComponent⟩ imports with
          | none => some (.error ("unrecognized external reference '"
              ++ String.mk remoteComponent
              ++ "'; please provide the known import for this reference using option --import-mapping"))
          | some goImportName =>
            (match fragmentRefToGoType false ("#" ++ ⟨flatComponent⟩) with
             | .error e => some (.error e)
             | .ok goType => some (.ok (goImportName ++ "." ++ goType))))
       | _ => some (.error ("unsupported reference: " ++ p))) := by
  unfold refPathToGoType
  rw [hdata]
  simp only [hc, Bool.false_eq_true, if_false]

theorem refPathToGoType_split_two (imports : List (String × String))
    (isLocal : Bool) (p : String) (c : Char) (rest d f : List Char)
    (hdata : p.data = c :: rest) (hc : (c == '#') = false)
    (hsp : splitOnChar '#' p.data = [d, f]) :
    refPathToGoType imports isLocal p =
      (match lookupImport ⟨d⟩ imports with
       | none => some (.error ("unrecognized external reference '"
           ++ String.mk d
           ++ "'; please provide the known import for this reference using option --import-mapping"))
       | some goImportName =>
         (match fragmentRefToGoType false ("#" ++ ⟨f⟩) with
          | .error e => some (.error e)
          | .ok goType => some (.ok (goImportName ++ "." ++ goType)))) := by
  rw [refPathToGoType_nonhash imports isLocal p c rest hdata hc, hsp]

/-- C3 (amended): for every *non-empty* reference path, a local fragment
path (first byte `#`) resolves successfully exactly when it has 4
slash-separated segments, the result being the sanitized Pascal-cased
final segment; a path into another document (exactly one `#`, not
leading) fails with the unmapped-external-document error when its
document identifier is absent from the import mapping, and otherwise
resolves its fragment in non-local mode — depth 2 or 4 accepted —
qualified with the mapped alias; every other non-empty shape is an
error.  (The empty path is not handled: it panics, see the
counterexample and C10.) -/
theorem c3_ref_resolver_amended :
    (∀ (imports : List (String × String)) (p : String) (rest : List Char),
        p.data = '#' :: rest →
        ((∃ t, refPathToGoType imports true p = some (.ok t)) ↔
          (splitOnChar '/' p.data).length = 4))
  ∧ (∀ (imports : List (String × String)) (p : String) (rest : List Char),
        p.data = '#' :: rest → (splitOnChar '/' p.data).length = 4 →
        refPathToGoType imports true p =
          some (.ok (SchemaNameToTypeName ⟨(splitOnChar '/' p.data).getLastD []⟩)))
  ∧ (∀ (imports : List (String × String)) (p : String) (c : Char) (rest : List Char),
        p.data = c :: rest → (c == '#') = false →
        ∀ d f, splitOnChar '#' p.data = [d, f] →
          lookupImport ⟨d⟩ imports = none →
          refPathToGoType imports true p = some (.error
            ("unrecognized external reference '" ++ String.mk d ++
             "'; please provide the known import for this reference using option --import-mapping")))
  ∧ (∀ (imports : List (String × String)) (p : String) (c : Char) (rest : List Char),
        p.data = c :: rest → (c == '#') = false →
        ∀ d f ali, splitOnChar '#' p.data = [d, f] →
          lookupImport ⟨d⟩ imports = some ali →
          refPathToGoType imports true p =
            some (match fragmentRefToGoType false ("#" ++ ⟨f⟩) with
              | .error e => .error e
              | .ok goType => .ok (ali ++ "." ++ goType)))
  ∧ (∀ p : String, (∃ t, fragmentRefToGoType false p = .ok t) ↔
        ((splitOnChar '/' p.data).length = 4 ∨ (splitOnChar '/' p.data).length = 2))
  ∧ (∀ (imports : List (String × String)) (p : String) (c : Char) (rest : List Char),
        p.data = c :: rest → (c == '#') = false →
        (splitOnChar '#' p.data).length ≠ 2 →
        refPathToGoType imports true p = some (.error ("unsupported reference: " ++ p)))
  ∧ refPathToGoType [("doc.json", "Doc")] true "doc.json#/Foo" = some (.ok "Doc.Foo")
  ∧ RefPathToGoType [] "#/components/schemas/Foo" = some (.ok "Foo")
  ∧ RefPathToGoType [] "#/a/b" =
      some (.error "unexpected reference depth: 3 for ref: #/a/b local: true")
  ∧ RefPathToGoType [] "doc.json#/Foo" = some (.error
      "unrecognized external reference 'doc.json'; please provide the known import for this reference using option --import-mapping") := by
  refine ⟨?_, ?_, ?_, ?_, ?_, ?_, by decide, by decide, by decide, by decide⟩
  · intro imports p rest hdata
    rw [refPathToGoType_hash imports true p rest hdata, fragment_local_cases]
    by_cases h4 : (splitOnChar '/' p.data).length = 4
    · simp [h4]
    · simp [h4]
  · intro imports p rest hdata h4
    rw [refPathToGoType_hash imports true p rest hdata, fragment_local_cases, if_pos h4]
  · intro imports p c rest hdata hc d f hsplit hlook
    rw [refPathToGoType_split_two imports true p c rest d f hdata hc hsplit, hlook]
  · intro imports p c rest hdata hc d f ali hsplit hlook
    rw [refPathToGoType_split_two imports true p c rest d f hdata hc hsplit, hlook]
    cases hfrag : fragmentRefToGoType false ("#" ++ ⟨f⟩) <;> rfl
  · intro p
    rw [fragment_nonlocal_cases]
    by_cases h : (splitOnChar '/' p.data).length = 4 ∨ (splitOnChar '/' p.data).length = 2
    · simp [h]
    · simp [h]
  · intro imports p c rest hdata hc hlen
    rw [refPathToGoType_nonhash imports true p c rest hdata hc]
    match hsp : splitOnChar '#' p.data with
    | [] => rfl
    | [d] => rfl
    | [d, f] => rw [hsp] at hlen; simp at hlen
    | d :: f :: g :: tl => rfl

/-- C3 counterexample: on the empty reference path the resolver does not
return an error — it reads `refPath[0]` unconditionally and panics
(`none` in this model), against the claim that every other shape is an
error. -/
theorem c3_empty_path_cex : refPathToGoType [] true "" = none := by decide

/-- C10: `refPathToGoType` panics (reads the first byte of its argument)
exactly on the empty path, and returns a result — a type name or an
error, never a panic — on every non-empty path, in both local and
non-local mode; `RefPathToGoType` is the local-mode entry point. -/
theorem c10_ref_path_totality :
    (∀ (imports : List (String × String)) (isLocal : Bool),
        refPathToGoType imports isLocal "" = none)
  ∧ (∀ imports : List (String × String), RefPathToGoType imports "" = none)
  ∧ (∀ (imports : List (String × String)) (isLocal : Bool) (p : String), p ≠ "" →
        ∃ r, refPathToGoType imports isLocal p = some r) := by
  refine ⟨fun imports isLocal => rfl, fun imports => rfl, ?_⟩
  intro imports isLocal p hp
  cases hd : p.data with
  | nil =>
    exfalso
    apply hp
    cases p with
    | mk d => cases hd; rfl
  | cons c cs =>
    cases hc : c == '#' with
    | true =>
      have hc2 : c = '#' := eq_of_beq hc
      rw [hc2] at hd
      rw [refPathToGoType_hash imports isLocal p cs hd]
      exact ⟨_, rfl⟩
    | false =>
      match hsp : splitOnChar '#' p.data with
      | [] =>
        rw [refPathToGoType_nonhash imports isLocal p c cs hd hc, hsp]
        exact ⟨_, rfl⟩
      | [d] =>
        rw [refPathToGoType_nonhash imports isLocal p c cs hd hc, hsp]
        exact ⟨_, rfl⟩
      | [d, f] =>
        rw [refPathToGoType_split_two imports isLocal p c cs d f hd hc hsp]
        cases hlook : lookupImport ⟨d⟩ imports with
        | none => exact ⟨_, rfl⟩
        | some ali =>
          cases hfrag : fragmentRefToGoType false ("#" ++ ⟨f⟩) with
          | error e => exact ⟨_, rfl⟩
          | ok t => exact ⟨_, rfl⟩
      | d :: f :: g :: tl =>
        rw [refPathToGoType_nonhash imports isLocal p c cs hd hc, hsp]
        exact ⟨_, rfl⟩

/-! ## C4 — the Enum Extractor -/

theorem lookupCount_bumpCount_self (k : String) : ∀ d : List (String × Nat),
    lookupCount k (bumpCount k d) = some ((lookupCount k d).getD 0 + 1)
  | [] => by simp [bumpCount, lookupCount]
  | (k', n) :: rest => by
    by_cases h : (k' == k) = true
    · simp [bumpCount, lookupCount, h]
    · simp only [bumpCount, lookupCount, h, Bool.false_eq_true, if_false]
      exact lookupCount_bumpCount_self k rest

theorem lookupCount_bumpCount_ne (k k' : String) (hne : k' ≠ k) :
    ∀ d : List (String × Nat), lookupCount k' (bumpCount k d) = lookupCount k' d
  | [] => by
    have : (k == k') = false := by
      simp
      exact fun h => hne h.symm
    simp [bumpCount, lookupCount, this]
  | (k'', n) :: rest => by
    by_cases h : (k'' == k) = true
    · have h2 : (k'' == k') = false := by
        cases hb : k'' == k'
        · rfl
        · exact absurd ((eq_of_beq hb).symm.trans (eq_of_beq h)) hne
      simp [bumpCount, lookupCount, h, h2]
    · simp only [bumpCount, lookupCount, h, Bool.false_eq_true, if_false]
      by_cases h3 : (k'' == k') = true
      · simp [h3]
      · simp only [h3, Bool.false_eq_true, if_false]
        exact lookupCount_bumpCount_ne k k' hne rest

theorem countInv_step (d : List (String × Nat)) (seen : List String) (c : String)
    (hinv : ∀ k, lookupCount k d =
      if seen.count k = 0 then none else some (seen.count k)) :
    ∀ k, lookupCount k (bumpCount c d) =
      if (seen ++ [c]).count k = 0 then none else some ((seen ++ [c]).count k) := by
  intro k
  by_cases hk : k = c
  · subst hk
    rw [lookupCount_bumpCount_self, hinv k]
    have hcount : (seen ++ [k]).count k = seen.count k + 1 := by
      simp [List.count_append]
    rw [hcount]
    by_cases hz : seen.count k = 0
    · rw [if_pos hz, if_neg (by omega), hz]
      rfl
    · rw [if_neg hz, if_neg (by omega)]
      rfl
  · rw [lookupCount_bumpCount_ne c k hk, hinv k]
    have hbeq : (k == c) = false := by
      cases hb : k == c
      · rfl
      · exact absurd (eq_of_beq hb) hk
    have hcount : (seen ++ [c]).count k = seen.count k := by
      rw [List.count_append]
      have h0 : List.count k [c] = 0 := by
        simp [List.count_cons]
        exact fun h => hk h.symm
      omega
    rw [hcount]

theorem sanitizeEnumLoop_spec (hm : Bool) :
    ∀ (rest : List String) (d : List (String × Nat)) (seen : List String)
      (acc : List (String × String)),
      (∀ k, lookupCount k d =
        if seen.count k = 0 then none else some (seen.count k)) →
      sanitizeEnumLoop hm d acc rest =
        ((suffixCollisions seen (rest.map fun n =>
            enumCandidate (if hm then toLowerStr n else n))).zip rest).foldl
          (fun m kv => upsert kv.1 kv.2 m) acc := by
  intro rest
  induction rest with
  | nil => intro d seen acc hinv; rfl
  | cons n ns ih =>
    intro d seen acc hinv
    simp only [sanitizeEnumLoop, List.map_cons, suffixCollisions, List.zip_cons_cons,
      List.foldl_cons, enumCandidate]
    set c0 := sanitizeGoIdentityCore (SchemaNameToEnumValueName
      (if hm = true then toLowerStr n else n))
    rw [hinv c0]
    by_cases hz : List.count c0 seen = 0
    · have hzb : (List.count c0 seen == 0) = true := by simp [hz]
      rw [if_pos hz, hzb]
      simp only [if_true]
      exact ih (bumpCount c0 d) (seen ++ [c0]) (upsert c0 n acc)
        (countInv_step d seen c0 hinv)
    · have hzb : (List.count c0 seen == 0) = false := by simp [hz]
      rw [if_neg hz, hzb]
      simp only [Bool.false_eq_true, if_false]
      exact ih (bumpCount c0 d) (seen ++ [c0])
        (upsert (c0 ++ toString (List.count c0 seen)) n acc)
        (countInv_step d seen c0 hinv)

/-- C4: `SanitizeEnumNames` is exactly the claim's four-step pipeline
(`specSanitizeEnumNames`): drop exact duplicate literals keeping first
occurrences, lower-case all surviving literals when any contains an
underscore/hyphen/space, sanitize each into a candidate identifier, and
give a colliding entry the numeric suffix counting its prior
same-candidate occurrences (the first occurrence always keeps the bare
identifier); plus the spec's two concrete examples. -/
theorem c4_sanitize_enum_names :
    (∀ names : List String, SanitizeEnumNames names = specSanitizeEnumNames names)
  ∧ SanitizeEnumNames ["A", "a-b", "c"] = [("A", "A"), ("AB", "a-b"), ("C", "c")]
  ∧ SanitizeEnumNames ["x", "x"] = [("X", "x")] := by
  refine ⟨?_, by decide, by decide⟩
  intro names
  unfold SanitizeEnumNames specSanitizeEnumNames
  rw [sanitizeEnumLoop_spec _ _ [] [] [] (by intro k; simp [lookupCount])]
  have hmap : (lowerAllIfMultiWord (dedupKeepFirst [] names)).map enumCandidate
      = (dedupKeepFirst [] names).map (fun n =>
          enumCandidate (if (dedupKeepFirst [] names).any containsSeparator
            then toLowerStr n else n)) := by
    unfold lowerAllIfMultiWord
    by_cases h : (dedupKeepFirst [] names).any containsSeparator = true
    · simp [h, List.map_map, Function.comp]
    · simp [h]
  simp only [hmap]

/-! ## C1 — the compiler unrolls reference cycles -/

theorem genPropsLoop_none (rec : GenRec) (env : List OASchemaM) (schema : OASchemaM)
    (path : List String) (pName : String) (rest : List String) (out : SchemaM)
    (h : rec (lookupProp pName schema.properties) (path ++ [pName]) = none) :
    genPropsLoop rec env schema path (pName :: rest) out = none := by
  simp only [genPropsLoop, h]

theorem generatePropertiesGo_none (rec : GenRec) (env : List OASchemaM)
    (schema : OASchemaM) (path : List String) (out : SchemaM)
    (h : genPropsLoop rec env schema path (SortedSchemaKeys schema.properties) out = none) :
    generatePropertiesGo rec env schema path out = none := by
  simp only [generatePropertiesGo, h]

theorem refSchemasLoop_none (rec : GenRec) (env : List OASchemaM)
    (path : List String) (scm : OASchemaM) (rest : List OASchemaM) (out : SchemaM)
    (h : generatePropertiesGo rec env scm path out = none) :
    refSchemasLoop rec env path (scm :: rest) out = none := by
  simp only [refSchemasLoop, h]

theorem objBranch_none (rec : GenRec) (env : List OASchemaM) (schema : OASchemaM)
    (path : List String) (out : SchemaM)
    (h : generatePropertiesGo rec env schema path out = none) :
    (match generatePropertiesGo rec env schema path out with
     | none => none
     | some (.error e) => some (.error e)
     | some (.ok out1) =>
       some (.ok (out1.withGoType (GenStructFromSchema out1)))) = (none : GenResult) := by
  rw [h]

/-- C1: the claim — and the spec — say a reference node never inlines
the referenced schema's body, so a cyclic schema graph compiles in
bounded depth.  The code does the opposite: the reference branch of
`GenerateGoSchema` walks `sref.Value`'s own properties (`schemas :=
[]*openapi3.Schema{schema}` followed by `generateProperties`), so on the
one-schema cyclic document `Foo = {type: object, properties: {self:
$ref Foo}}` the compilation of the `self` reference re-enters itself
and never finishes: for every fuel bound it runs out of fuel — both
when compiling the reference node itself and when compiling the
definition of `Foo`. -/
theorem c1_cyclic_reference_diverges :
    (∀ (n : Nat) (path : List String),
        GenerateGoSchemaF cycEnv [] n (some selfRef) path = none)
  ∧ (∀ n : Nat, GenerateGoSchemaF cycEnv [] n (some fooDefRef) ["Foo"] = none)
  ∧ Option.map (Except.map SchemaM.goType)
      (GenerateGoSchemaF plainEnv [] 3 (some ⟨"", 0⟩) ["Top"])
      = some (.ok ("struct \x7b\n    Name string`json:\"name\"`\n\x7d")) := by
  have part1 : ∀ (n : Nat) (path : List String),
      GenerateGoSchemaF cycEnv [] n (some selfRef) path = none := by
    intro n
    induction n with
    | zero => intro _; rfl
    | succ n ih =>
      intro path
      exact refSchemasLoop_none _ _ _ _ _ _
        (generatePropertiesGo_none _ _ _ _ _
          (genPropsLoop_none _ _ _ _ _ _ _ (ih (path ++ ["self"]))))
  refine ⟨part1, ?_, by decide⟩
  intro n
  cases n with
  | zero => rfl
  | succ n =>
    exact objBranch_none _ _ _ _ _
      (generatePropertiesGo_none _ _ _ _ _
        (genPropsLoop_none _ _ _ _ _ _ _ (part1 n (["Foo"] ++ ["self"]))))

end OapiCodegen
